import Mathlib

/-!
Shallow embedding of `skbold/core/mvp.py` — the `Mvp` (multiVoxel Pattern)
container and its two mutating operations `update_metadata` and `update_mask`.

Modelling conventions:
* numpy 1-D arrays become Lean `List`s; the flat boolean mask `mask_index`
  is a `List Bool`, `mask_shape` a `List Nat` (tuple of dimensions).
* `cope_labels` is a 1-D array of strings (numpy broadcasting semantics for
  `cl == cls`, as the loader supplies an `np.ndarray`).
* Python `None`-initialised attributes become `Option` fields.
* A method that can raise becomes a function into `Except String`, returning
  `.error msg` at the exact program point where Python raises; since the
  Python code raises before any field assignment, an `.error` result models a
  call that left the container in its pre-call state.
* `nifti_header` and `affine` are opaque metadata: type parameters `H` and `A`.
-/

namespace Skbold

/-- The `Mvp` container: the fields assigned in `Mvp.__init__` plus the
fields created by `update_metadata` (all start as `None`/absent). -/
structure Mvp (H A : Type) where
  directory : String
  sub_name : String
  run_name : String
  ref_space : String
  beta2tstat : Bool
  mask_path : Option String
  mask_threshold : Int
  mask_name : String
  remove_cope : List String
  cope_labels : Option (List String)
  n_cope : Option Nat
  cope_names : Option (List String)
  mask_index : Option (List Bool)
  mask_shape : Option (List Nat)
  nifti_header : Option H
  affine : Option A
  X : Option (List (List Int))
  y : Option (List Nat)
  n_trials : Option Nat
  n_inst : Option (List Nat)
  class_idx : Option (List (List Bool))
  trial_idx : Option (List (List Nat))

/-- Lexicographic (code-point) order on strings, the order numpy uses when
sorting string arrays. -/
def strLt (x y : String) : Prop :=
  List.Lex (· < ·) x.data y.data

instance strLt.decRel : DecidableRel strLt :=
  fun x y => List.Lex.decidableRel (· < ·) x.data y.data

/-- Insert a string into a (sorted, duplicate-free) list, keeping it sorted
and duplicate-free. Helper for `np_unique`. -/
def insertSorted (x : String) : List String → List String
  | [] => [x]
  | y :: ys =>
    if x = y then y :: ys
    else if strLt x y then x :: y :: ys
    else y :: insertSorted x ys

/-- Embeds `np.unique(cl)`: the distinct values of `cl` in sorted order. -/
def np_unique (cl : List String) : List String :=
  cl.foldr insertSorted []

/-- Embeds `LabelEncoder().fit_transform(cl)`: each label is replaced by its rank in
the sorted order of the distinct labels. -/
def label_encode (cl : List String) : List Nat :=
  cl.map fun s => (np_unique cl).indexOf s

/-- Embeds `[np.sum(cls == cl) for cls in cl]`: for each sample position, how many
samples in the whole sequence carry that sample's own label. -/
def n_inst_of (cl : List String) : List Nat :=
  cl.map fun cls => cl.countP fun x => decide (x = cls)

/-- Embeds `[cl == cls for cls in cope_names]`: per condition, the boolean vector
over samples marking membership in that condition. -/
def class_idx_of (cl : List String) : List (List Bool) :=
  (np_unique cl).map fun cls => cl.map fun x => decide (x = cls)

/-- Embeds `[np.where(cl == cls)[0] for cls in cope_names]`: per condition, the
increasing list of sample positions belonging to that condition. -/
def trial_idx_of (cl : List String) : List (List Nat) :=
  (np_unique cl).map fun cls =>
    (List.range cl.length).filter fun i => decide (cl.getD i "" = cls)

/-- Embeds `Mvp.update_metadata`: recompute every label-derived field from
`cope_labels`. When `cope_labels` is `None`, `LabelEncoder().fit_transform`
raises before any field is assigned. -/
def update_metadata {H A : Type} (m : Mvp H A) : Except String (Mvp H A) :=
  match m.cope_labels with
  | none => .error "TypeError: cope_labels is None"
  | some cl =>
    .ok { m with
          y := some (label_encode cl),
          n_trials := some cl.length,
          cope_names := some (np_unique cl),
          n_cope := some (np_unique cl).length,
          n_inst := some (n_inst_of cl),
          class_idx := some (class_idx_of cl),
          trial_idx := some (trial_idx_of cl) }

/-- Number of `true` entries of a boolean vector (`mask.sum()` on a numpy
boolean array). -/
def countTrue (l : List Bool) : Nat := l.countP id

/-- Number of nonzero entries of a numeric vector. -/
def countNonzero (l : List Int) : Nat := l.countP fun v => decide (v ≠ 0)

/-- The diagnostic of `update_mask`'s `ValueError`:
`'Shape of new index (%r) is not the same as the current pattern (%r)!'`. -/
def mismatch_msg (newSize curSize : Nat) : String :=
  "Shape of new index (" ++ toString newSize ++
    ") is not the same as the current pattern (" ++ toString curSize ++ ")!"

/-- Embeds `tmp_idx[mask_index.reshape(shape)] += new_idx; tmp_idx.astype(bool).ravel()`
on the flat row-major view: walk the flat mask; at each `true` position consume
the next entry of `new_idx` and keep the position iff that entry is nonzero;
every `false` position stays `false` (the scratch array starts at zero). -/
def place_sub : List Bool → List Int → List Bool
  | [], _ => []
  | b :: ms, s =>
    if b then
      match s with
      | [] => false :: place_sub ms []
      | v :: vs => decide (v ≠ 0) :: place_sub ms vs
    else false :: place_sub ms s

/-- Embeds `Mvp.update_mask(new_idx)`: guard on `new_idx.size != mask_index.sum()`
(raising `ValueError` with `mismatch_msg`), then build the scratch volume of
shape `mask_shape` (requiring the flat mask to reshape into it), place
`new_idx` at the active positions, binarize and flatten. Errors follow the
Python evaluation order: the attribute accesses and the size guard come
before the reshape. -/
def update_mask {H A : Type} (m : Mvp H A) (new_idx : List Int) :
    Except String (Mvp H A) :=
  match m.mask_index with
  | none => .error "AttributeError: mask_index is None"
  | some mask =>
    if new_idx.length ≠ countTrue mask then
      .error (mismatch_msg new_idx.length (countTrue mask))
    else
      match m.mask_shape with
      | none => .error "TypeError: mask_shape is None"
      | some shape =>
        if mask.length = shape.prod then
          .ok { m with mask_index := some (place_sub mask new_idx) }
        else
          .error "ValueError: cannot reshape mask_index into mask_shape"

/-- A bare container as `Mvp.__init__` leaves it (no mask path, defaults),
used to build the concrete scenarios. -/
def mvp0 (H A : Type) : Mvp H A :=
  { directory := "/data/sub01/run1.feat"
    sub_name := "sub01"
    run_name := "run1"
    ref_space := "mni"
    beta2tstat := true
    mask_path := none
    mask_threshold := 0
    mask_name := "WholeBrain"
    remove_cope := []
    cope_labels := none
    n_cope := none
    cope_names := none
    mask_index := none
    mask_shape := none
    nifti_header := none
    affine := none
    X := none
    y := none
    n_trials := none
    n_inst := none
    class_idx := none
    trial_idx := none }

/-- Scenario A container: `cope_labels = ["A","B","A","C","B","A"]`. -/
def mvpA : Mvp Unit Unit :=
  { mvp0 Unit Unit with cope_labels := some ["A", "B", "A", "C", "B", "A"] }

/-- Scenario B container: `mask_shape = (2,2)`,
`mask_index = [true,false,true,false]`. -/
def mvpB : Mvp Unit Unit :=
  { mvp0 Unit Unit with
      mask_index := some [true, false, true, false]
      mask_shape := some [2, 2] }

/-- Container whose `cope_labels` is the empty sequence. -/
def mvpEmptyLabels : Mvp Unit Unit :=
  { mvp0 Unit Unit with cope_labels := some [] }

/-! ### Helper lemmas: the string order -/

theorem strLt_trans {a b c : String} (h1 : strLt a b) (h2 : strLt b c) :
    strLt a c :=
  trans_of (List.Lex (· < ·)) h1 h2

theorem strLt_irrefl (a : String) : ¬ strLt a a :=
  irrefl_of (List.Lex (· < ·)) a.data

theorem strLt_ne {a b : String} (h : strLt a b) : a ≠ b := by
  rintro rfl
  exact strLt_irrefl a h

theorem strLt_total {a b : String} (h : a ≠ b) : strLt a b ∨ strLt b a := by
  have ht : IsTrichotomous (List Char) (List.Lex (· < ·)) :=
    (inferInstanceAs
      (IsStrictTotalOrder (List Char) (List.Lex (· < ·)))).toIsTrichotomous
  rcases ht.trichotomous a.data b.data with h1 | h1 | h1
  · exact .inl h1
  · exact absurd (String.ext h1) h
  · exact .inr h1

/-! ### Helper lemmas: `insertSorted` and `np_unique` -/

theorem mem_insertSorted (x b : String) (l : List String) :
    b ∈ insertSorted x l ↔ b = x ∨ b ∈ l := by
  induction l with
  | nil => simp [insertSorted]
  | cons y ys ih =>
    by_cases h1 : x = y
    · subst h1
      have he : insertSorted x (x :: ys) = x :: ys := by
        simp [insertSorted]
      rw [he, List.mem_cons]
      tauto
    · by_cases h2 : strLt x y
      · simp only [insertSorted, if_neg h1, if_pos h2, List.mem_cons]
      · simp only [insertSorted, if_neg h1, if_neg h2, List.mem_cons, ih]
        tauto

theorem sorted_insertSorted (x : String) (l : List String)
    (h : l.Sorted strLt) : (insertSorted x l).Sorted strLt := by
  induction l with
  | nil => simp [insertSorted]
  | cons y ys ih =>
    rw [List.sorted_cons] at h
    obtain ⟨hy, hys⟩ := h
    by_cases h1 : x = y
    · subst h1
      simpa [insertSorted] using List.sorted_cons.mpr ⟨hy, hys⟩
    · by_cases h2 : strLt x y
      · simp only [insertSorted, if_neg h1, if_pos h2]
        refine List.sorted_cons.mpr ⟨?_, List.sorted_cons.mpr ⟨hy, hys⟩⟩
        intro b hb
        rcases List.mem_cons.mp hb with rfl | hb
        · exact h2
        · exact strLt_trans h2 (hy b hb)
      · simp only [insertSorted, if_neg h1, if_neg h2]
        refine List.sorted_cons.mpr ⟨?_, ih hys⟩
        intro b hb
        rcases (mem_insertSorted x b ys).mp hb with rfl | hb
        · rcases strLt_total h1 with hc | hc
          · exact absurd hc h2
          · exact hc
        · exact hy b hb

theorem nodup_of_sorted {l : List String} (h : l.Sorted strLt) : l.Nodup :=
  List.Pairwise.imp (fun h' => strLt_ne h') h

theorem np_unique_sorted (cl : List String) : (np_unique cl).Sorted strLt := by
  induction cl with
  | nil => simp [np_unique]
  | cons a l ih => exact sorted_insertSorted a _ ih

theorem mem_np_unique {a : String} {cl : List String} :
    a ∈ np_unique cl ↔ a ∈ cl := by
  induction cl with
  | nil => simp [np_unique]
  | cons b l ih =>
    show a ∈ insertSorted b (np_unique l) ↔ _
    rw [mem_insertSorted, ih, List.mem_cons]

theorem np_unique_nodup (cl : List String) : (np_unique cl).Nodup :=
  nodup_of_sorted (np_unique_sorted cl)

/-! ### Helper lemmas: `place_sub`, `countTrue`, `countNonzero` -/

theorem length_place_sub (mask : List Bool) :
    ∀ sub : List Int, (place_sub mask sub).length = mask.length := by
  induction mask with
  | nil => intro sub; rfl
  | cons b ms ih =>
    intro sub
    cases b with
    | false => simp [place_sub, ih]
    | true => cases sub <;> simp [place_sub, ih]

theorem countTrue_place_sub (mask : List Bool) :
    ∀ sub : List Int, sub.length = countTrue mask →
      countTrue (place_sub mask sub) = countNonzero sub := by
  induction mask with
  | nil =>
    intro sub h
    simp only [countTrue, List.countP_nil] at h
    rw [List.length_eq_zero] at h
    subst h
    rfl
  | cons b ms ih =>
    intro sub h
    cases b with
    | false =>
      simp only [countTrue, List.countP_cons, id, if_neg] at h
      simp only [place_sub, Bool.false_eq_true, if_false, countTrue,
        List.countP_cons]
      simpa [countTrue] using ih sub (by simpa [countTrue] using h)
    | true =>
      cases sub with
      | nil => simp [countTrue, List.countP_cons] at h
      | cons v vs =>
        simp only [countTrue, List.countP_cons, id] at h
        simp only [place_sub, if_pos, countTrue, countNonzero,
          List.countP_cons, id]
        have hvs : vs.length = countTrue ms := by
          simpa [countTrue] using h
        have := ih vs hvs
        simp only [countTrue, countNonzero] at this
        rw [this]

theorem place_sub_subset (mask : List Bool) :
    ∀ (sub : List Int) (i : Nat),
      (place_sub mask sub).getD i false = true → mask.getD i false = true := by
  induction mask with
  | nil =>
    intro sub i h
    simp [place_sub] at h
  | cons b ms ih =>
    intro sub i h
    cases b with
    | false =>
      cases i with
      | zero => simp [place_sub] at h
      | succ n =>
        simp only [place_sub, Bool.false_eq_true, if_false,
          List.getD_cons_succ] at h ⊢
        exact ih sub n h
    | true =>
      cases i with
      | zero => rfl
      | succ n =>
        cases sub with
        | nil =>
          simp only [place_sub, if_pos, List.getD_cons_succ] at h ⊢
          exact ih [] n h
        | cons v vs =>
          simp only [place_sub, if_pos, List.getD_cons_succ] at h ⊢
          exact ih vs n h

theorem place_sub_all_nonzero (mask : List Bool) :
    ∀ sub : List Int, sub.length = countTrue mask → (∀ v ∈ sub, v ≠ 0) →
      place_sub mask sub = mask := by
  induction mask with
  | nil => intro sub h hv; rfl
  | cons b ms ih =>
    intro sub h hv
    cases b with
    | false =>
      simp only [place_sub, Bool.false_eq_true, if_false]
      rw [ih sub (by simpa [countTrue, List.countP_cons] using h) hv]
    | true =>
      cases sub with
      | nil => simp [countTrue, List.countP_cons] at h
      | cons v vs =>
        have hv0 : v ≠ 0 := hv v (List.mem_cons_self v vs)
        simp only [place_sub, if_pos, decide_eq_true hv0]
        rw [ih vs (by simpa [countTrue, List.countP_cons] using h)
          (fun w hw => hv w (List.mem_cons_of_mem _ hw))]

/-! ### Helper lemmas: unfolding the two operations -/

theorem update_mask_ok {H A : Type} (m : Mvp H A) (mask : List Bool)
    (shape : List Nat) (sub : List Int)
    (h1 : m.mask_index = some mask) (h2 : m.mask_shape = some shape)
    (h3 : mask.length = shape.prod) (h4 : sub.length = countTrue mask) :
    update_mask m sub =
      .ok { m with mask_index := some (place_sub mask sub) } := by
  unfold update_mask
  rw [h1]
  simp [h2, h3, h4]

theorem update_mask_mismatch {H A : Type} (m : Mvp H A) (mask : List Bool)
    (sub : List Int)
    (h1 : m.mask_index = some mask) (h4 : sub.length ≠ countTrue mask) :
    update_mask m sub =
      .error (mismatch_msg sub.length (countTrue mask)) := by
  unfold update_mask
  rw [h1]
  simp [h4]

theorem update_metadata_ok {H A : Type} (m : Mvp H A) (cl : List String)
    (h : m.cope_labels = some cl) :
    update_metadata m = .ok { m with
      y := some (label_encode cl),
      n_trials := some cl.length,
      cope_names := some (np_unique cl),
      n_cope := some (np_unique cl).length,
      n_inst := some (n_inst_of cl),
      class_idx := some (class_idx_of cl),
      trial_idx := some (trial_idx_of cl) } := by
  unfold update_metadata
  rw [h]

theorem getD_map_lt {α β : Type} (f : α → β) (l : List α) (i : Nat)
    (h : i < l.length) (d : α) (e : β) :
    (l.map f).getD i e = f (l.getD i d) := by
  rw [List.getD_eq_getElem _ _ (by simpa using h), List.getD_eq_getElem _ _ h,
    List.getElem_map]

theorem update_mask_ok_inv {H A : Type} (m : Mvp H A) (sub : List Int)
    (m' : Mvp H A) (h : update_mask m sub = .ok m') :
    ∃ mask shape, m.mask_index = some mask ∧ m.mask_shape = some shape ∧
      sub.length = countTrue mask ∧ mask.length = shape.prod ∧
      m' = { m with mask_index := some (place_sub mask sub) } := by
  unfold update_mask at h
  cases hm : m.mask_index with
  | none => simp [hm] at h
  | some mask =>
    simp only [hm] at h
    by_cases hl : sub.length ≠ countTrue mask
    · simp [hl] at h
    · simp only [if_neg hl] at h
      cases hs : m.mask_shape with
      | none => simp [hs] at h
      | some shape =>
        simp only [hs] at h
        by_cases hp : mask.length = shape.prod
        · simp only [if_pos hp, Except.ok.injEq] at h
          exact ⟨mask, shape, rfl, rfl, not_not.mp hl, hp, h.symm⟩
        · simp [hp] at h

/-! ### The claims -/

/-- C1: for every valid call `refineMask(subIndex)` (`subIndex` length equal
to the current count of true entries in `activeMaskIndex`), the number of
true entries of the new `activeMaskIndex` equals the number of nonzero
entries of `subIndex`; in particular, with `maskShape (2,2)`,
`activeMaskIndex [true,false,true,false]` and `subIndex [1,0]`, the new
`activeMaskIndex` is `[true,false,false,false]`. -/
theorem claim_C1 {H A : Type} (m : Mvp H A) (mask : List Bool)
    (shape : List Nat) (sub : List Int)
    (h1 : m.mask_index = some mask) (h2 : m.mask_shape = some shape)
    (h3 : mask.length = shape.prod) (h4 : sub.length = countTrue mask) :
    (∃ m', update_mask m sub = .ok m' ∧
      m'.mask_index = some (place_sub mask sub) ∧
      countTrue (place_sub mask sub) = countNonzero sub) ∧
    (∃ mB, update_mask mvpB [1, 0] = .ok mB ∧
      mB.mask_index = some [true, false, false, false]) :=
  ⟨⟨_, update_mask_ok m mask shape sub h1 h2 h3 h4, rfl,
    countTrue_place_sub mask sub h4⟩, ⟨_, rfl, by rfl⟩⟩

/-- Witness for C1: Scenario B (`maskShape (2,2)`,
`activeMaskIndex [true,false,true,false]`, `subIndex [1,0]`). -/
theorem claim_C1_witness :
    (∃ m', update_mask mvpB [1, 0] = .ok m' ∧
      m'.mask_index = some (place_sub [true, false, true, false] [1, 0]) ∧
      countTrue (place_sub [true, false, true, false] [1, 0]) =
        countNonzero [1, 0]) ∧
    (∃ mB, update_mask mvpB [1, 0] = .ok mB ∧
      mB.mask_index = some [true, false, false, false]) :=
  claim_C1 mvpB [true, false, true, false] [2, 2] [1, 0] rfl rfl (by decide)
    (by decide)

/-- C3: for every `subIndex` whose length differs from the current count of
true entries in `activeMaskIndex`, `refineMask(subIndex)` raises
`DimensionMismatchError` (the `ValueError` of the code) whose message
reports both sizes, and no updated container is produced — the mutation of
`mask_index` comes after the raise, so the container keeps its pre-call
state. -/
theorem claim_C3 {H A : Type} (m : Mvp H A) (mask : List Bool) (sub : List Int)
    (h1 : m.mask_index = some mask) (h4 : sub.length ≠ countTrue mask) :
    update_mask m sub = .error (mismatch_msg sub.length (countTrue mask)) ∧
    (mismatch_msg sub.length (countTrue mask)).data =
      "Shape of new index (".data ++ (toString sub.length).data ++
      ") is not the same as the current pattern (".data ++
      (toString (countTrue mask)).data ++ ")!".data ∧
    ∀ m', update_mask m sub ≠ .ok m' := by
  refine ⟨update_mask_mismatch m mask sub h1 h4, ?_, ?_⟩
  · simp [mismatch_msg, String.data_append]
  · intro m' hc
    rw [update_mask_mismatch m mask sub h1 h4] at hc
    exact Except.noConfusion hc

/-- Witness for C3: Scenario C (`subIndex` of length 3 against a mask with
2 true entries; the message mentions sizes 3 and 2). -/
theorem claim_C3_witness :
    update_mask mvpB [1, 0, 1] = .error (mismatch_msg 3 2) ∧
    (mismatch_msg 3 2).data =
      "Shape of new index (".data ++ (toString 3).data ++
      ") is not the same as the current pattern (".data ++
      (toString 2).data ++ ")!".data ∧
    ∀ m', update_mask mvpB [1, 0, 1] ≠ .ok m' :=
  claim_C3 mvpB [true, false, true, false] [1, 0, 1] rfl (by decide)

/-- C6: for every valid `subIndex`, after `refineMask(subIndex)` the new
`activeMaskIndex` is a subset of the old one: every position true in the
new mask was true in the old mask. -/
theorem claim_C6 {H A : Type} (m : Mvp H A) (mask : List Bool)
    (shape : List Nat) (sub : List Int)
    (h1 : m.mask_index = some mask) (h2 : m.mask_shape = some shape)
    (h3 : mask.length = shape.prod) (h4 : sub.length = countTrue mask) :
    ∃ m' mask', update_mask m sub = .ok m' ∧ m'.mask_index = some mask' ∧
      ∀ i, mask'.getD i false = true → mask.getD i false = true :=
  ⟨_, _, update_mask_ok m mask shape sub h1 h2 h3 h4, rfl,
    place_sub_subset mask sub⟩

/-- Witness for C6 at Scenario B. -/
theorem claim_C6_witness :
    ∃ m' mask', update_mask mvpB [1, 0] = .ok m' ∧
      m'.mask_index = some mask' ∧
      ∀ i, mask'.getD i false = true →
        [true, false, true, false].getD i false = true :=
  claim_C6 mvpB [true, false, true, false] [2, 2] [1, 0] rfl rfl (by decide)
    (by decide)

/-- C9: calling `refineMask` with an all-true (all-nonzero) `subIndex` of
the valid length is a no-op: the container after the call equals the
container before it. -/
theorem claim_C9 {H A : Type} (m : Mvp H A) (mask : List Bool)
    (shape : List Nat) (sub : List Int)
    (h1 : m.mask_index = some mask) (h2 : m.mask_shape = some shape)
    (h3 : mask.length = shape.prod) (h4 : sub.length = countTrue mask)
    (h5 : ∀ v ∈ sub, v ≠ 0) :
    update_mask m sub = .ok m := by
  rw [update_mask_ok m mask shape sub h1 h2 h3 h4,
    place_sub_all_nonzero mask sub h4 h5, ← h1]

/-- Witness for C9: an all-ones `subIndex` over Scenario B's mask. -/
theorem claim_C9_witness : update_mask mvpB [1, 1] = .ok mvpB :=
  claim_C9 mvpB [true, false, true, false] [2, 2] [1, 1] rfl rfl (by decide)
    (by decide) (by decide)

/-- C8: `refineMask` mutates only `activeMaskIndex`: whenever a call
succeeds, `featureMatrix`, `conditionLabels`, `encodedLabels`, `maskShape`,
`spatialHeader` and `affineTransform` are unchanged (a failing call raises
before any assignment and is modelled as `.error`, producing no new
state at all). -/
theorem claim_C8 {H A : Type} (m : Mvp H A) (sub : List Int) (m' : Mvp H A)
    (h : update_mask m sub = .ok m') :
    m'.X = m.X ∧ m'.cope_labels = m.cope_labels ∧ m'.y = m.y ∧
    m'.mask_shape = m.mask_shape ∧ m'.nifti_header = m.nifti_header ∧
    m'.affine = m.affine := by
  obtain ⟨mask, shape, hm, hs, hl, hp, rfl⟩ := update_mask_ok_inv m sub m' h
  exact ⟨rfl, rfl, rfl, rfl, rfl, rfl⟩

/-- The container Scenario B's successful call produces. -/
def mvpB' : Mvp Unit Unit :=
  { mvpB with mask_index := some [true, false, false, false] }

/-- Witness for C8 at Scenario B. -/
theorem claim_C8_witness :
    mvpB'.X = mvpB.X ∧ mvpB'.cope_labels = mvpB.cope_labels ∧
    mvpB'.y = mvpB.y ∧ mvpB'.mask_shape = mvpB.mask_shape ∧
    mvpB'.nifti_header = mvpB.nifti_header ∧ mvpB'.affine = mvpB.affine :=
  claim_C8 mvpB [1, 0] mvpB' (by rfl)

/-- C10: after every successful `refineMask` call the new `activeMaskIndex`
is a flat boolean vector whose length is the product of `maskShape` (which
the call leaves unchanged), so any sequence of successful calls keeps the
mask well-formed for the next call. -/
theorem claim_C10 {H A : Type} (m : Mvp H A) (sub : List Int) (m' : Mvp H A)
    (h : update_mask m sub = .ok m') :
    ∃ shape mask', m.mask_shape = some shape ∧ m'.mask_shape = some shape ∧
      m'.mask_index = some mask' ∧ mask'.length = shape.prod := by
  obtain ⟨mask, shape, hm, hs, hl, hp, rfl⟩ := update_mask_ok_inv m sub m' h
  exact ⟨shape, place_sub mask sub, hs, hs, rfl, by
    rw [length_place_sub]; exact hp⟩

/-- Witness for C10 at Scenario B. -/
theorem claim_C10_witness :
    ∃ shape mask', mvpB.mask_shape = some shape ∧
      mvpB'.mask_shape = some shape ∧ mvpB'.mask_index = some mask' ∧
      mask'.length = shape.prod :=
  claim_C10 mvpB [1, 0] mvpB' (by rfl)

/-- C2: Scenario A — after `update_metadata` on
`cope_labels = ["A","B","A","C","B","A"]` the container holds
`cope_names = ["A","B","C"]`, `y = [0,1,0,2,1,0]`,
`trial_idx = [[0,2,5],[1,4],[3]]` and the per-sample counts
`n_inst = [3,2,3,1,2,3]`. -/
theorem claim_C2 :
    ∃ m', update_metadata mvpA = .ok m' ∧
      m'.cope_names = some ["A", "B", "C"] ∧
      m'.y = some [0, 1, 0, 2, 1, 0] ∧
      m'.trial_idx = some [[0, 2, 5], [1, 4], [3]] ∧
      m'.n_inst = some [3, 2, 3, 1, 2, 3] :=
  ⟨_, rfl, by rfl, by rfl, by rfl, by rfl⟩

/-- C4: for every non-empty label sequence, `update_metadata` produces an
encoding of the same length that identifies two samples exactly when their
labels agree, assigns each label its rank (`indexOf`) in the sorted
duplicate-free list of distinct labels, and depends only on the label
sequence (two containers with the same labels get the same encoding). -/
theorem claim_C4 {H A : Type} (m : Mvp H A) (cl : List String)
    (h : m.cope_labels = some cl) (hne : cl ≠ []) :
    ∃ m' y u, update_metadata m = .ok m' ∧ m'.y = some y ∧
      m'.cope_names = some u ∧ y.length = cl.length ∧
      (∀ i j, i < cl.length → j < cl.length →
        (cl.getD i "" = cl.getD j "" ↔ y.getD i 0 = y.getD j 0)) ∧
      u.Sorted strLt ∧ u.Nodup ∧ (∀ a, a ∈ u ↔ a ∈ cl) ∧
      (∀ i, i < cl.length → y.getD i 0 = u.indexOf (cl.getD i "")) ∧
      (∀ m₂ : Mvp H A, m₂.cope_labels = some cl →
        ∃ m₂', update_metadata m₂ = .ok m₂' ∧ m₂'.y = some y) := by
  have hrank : ∀ i, i < cl.length →
      (label_encode cl).getD i 0 = (np_unique cl).indexOf (cl.getD i "") := by
    intro i hi
    simp only [label_encode]
    exact getD_map_lt _ cl i hi "" 0
  refine ⟨_, label_encode cl, np_unique cl, update_metadata_ok m cl h, rfl,
    rfl, List.length_map _ _, ?_, np_unique_sorted cl, np_unique_nodup cl,
    fun a => mem_np_unique, hrank, ?_⟩
  · intro i j hi hj
    rw [hrank i hi, hrank j hj]
    have hmi : cl.getD i "" ∈ np_unique cl := by
      rw [mem_np_unique, List.getD_eq_getElem _ _ hi]
      exact List.getElem_mem hi
    have hmj : cl.getD j "" ∈ np_unique cl := by
      rw [mem_np_unique, List.getD_eq_getElem _ _ hj]
      exact List.getElem_mem hj
    exact (List.indexOf_inj hmi hmj).symm
  · intro m₂ h₂
    exact ⟨_, update_metadata_ok m₂ cl h₂, rfl⟩

/-- Witness for C4 at Scenario A's labels. -/
theorem claim_C4_witness :
    ∃ m' y u, update_metadata mvpA = .ok m' ∧ m'.y = some y ∧
      m'.cope_names = some u ∧
      y.length = ["A", "B", "A", "C", "B", "A"].length ∧
      (∀ i j, i < ["A", "B", "A", "C", "B", "A"].length →
        j < ["A", "B", "A", "C", "B", "A"].length →
        (["A", "B", "A", "C", "B", "A"].getD i "" =
            ["A", "B", "A", "C", "B", "A"].getD j "" ↔
          y.getD i 0 = y.getD j 0)) ∧
      u.Sorted strLt ∧ u.Nodup ∧
      (∀ a, a ∈ u ↔ a ∈ ["A", "B", "A", "C", "B", "A"]) ∧
      (∀ i, i < ["A", "B", "A", "C", "B", "A"].length →
        y.getD i 0 = u.indexOf (["A", "B", "A", "C", "B", "A"].getD i "")) ∧
      (∀ m₂ : Mvp Unit Unit,
        m₂.cope_labels = some ["A", "B", "A", "C", "B", "A"] →
        ∃ m₂', update_metadata m₂ = .ok m₂' ∧ m₂'.y = some y) :=
  claim_C4 mvpA ["A", "B", "A", "C", "B", "A"] rfl (by decide)

/-- C5: after `update_metadata`, the `trial_idx` vectors partition the
sample indices — an index lies in some vector exactly when it is a valid
sample position, and no index lies in two distinct vectors — and for each
condition the number of true entries of its `class_idx` vector equals the
number of occurrences of that condition's name in `cope_labels`. -/
theorem claim_C5 {H A : Type} (m : Mvp H A) (cl : List String)
    (h : m.cope_labels = some cl) :
    ∃ m' tidx cidx u, update_metadata m = .ok m' ∧
      m'.trial_idx = some tidx ∧ m'.class_idx = some cidx ∧
      m'.cope_names = some u ∧
      (∀ j, (∃ v ∈ tidx, j ∈ v) ↔ j < cl.length) ∧
      (∀ c1 c2, c1 < tidx.length → c2 < tidx.length → c1 ≠ c2 →
        ∀ j, j ∈ tidx.getD c1 [] → j ∉ tidx.getD c2 []) ∧
      (∀ c, c < cidx.length →
        countTrue (cidx.getD c []) =
          cl.countP fun x => decide (x = u.getD c "")) := by
  refine ⟨_, trial_idx_of cl, class_idx_of cl, np_unique cl,
    update_metadata_ok m cl h, rfl, rfl, rfl, ?_, ?_, ?_⟩
  · intro j
    constructor
    · rintro ⟨v, hv, hj⟩
      obtain ⟨cls, _, rfl⟩ := List.mem_map.mp hv
      exact List.mem_range.mp (List.mem_filter.mp hj).1
    · intro hj
      refine ⟨(List.range cl.length).filter
        (fun i => decide (cl.getD i "" = cl.getD j "")), ?_, ?_⟩
      · refine List.mem_map.mpr ⟨cl.getD j "", ?_, rfl⟩
        rw [mem_np_unique, List.getD_eq_getElem _ _ hj]
        exact List.getElem_mem hj
      · exact List.mem_filter.mpr ⟨List.mem_range.mpr hj, decide_eq_true rfl⟩
  · intro c1 c2 hc1 hc2 hne j hj1 hj2
    have hu1 : c1 < (np_unique cl).length := by
      simpa [trial_idx_of, List.length_map] using hc1
    have hu2 : c2 < (np_unique cl).length := by
      simpa [trial_idx_of, List.length_map] using hc2
    rw [show (trial_idx_of cl).getD c1 [] = (List.range cl.length).filter
        (fun i => decide (cl.getD i "" = (np_unique cl).getD c1 "")) from
      getD_map_lt _ _ c1 hu1 "" []] at hj1
    rw [show (trial_idx_of cl).getD c2 [] = (List.range cl.length).filter
        (fun i => decide (cl.getD i "" = (np_unique cl).getD c2 "")) from
      getD_map_lt _ _ c2 hu2 "" []] at hj2
    have e1 := of_decide_eq_true (List.mem_filter.mp hj1).2
    have e2 := of_decide_eq_true (List.mem_filter.mp hj2).2
    have : (np_unique cl).getD c1 "" = (np_unique cl).getD c2 "" :=
      e1.symm.trans e2
    rw [List.getD_eq_getElem _ _ hu1, List.getD_eq_getElem _ _ hu2] at this
    exact hne (((np_unique_nodup cl).getElem_inj_iff).mp this)
  · intro c hc
    have hu : c < (np_unique cl).length := by
      simpa [class_idx_of, List.length_map] using hc
    rw [show (class_idx_of cl).getD c [] =
        cl.map (fun x => decide (x = (np_unique cl).getD c "")) from
      getD_map_lt _ _ c hu "" []]
    simp [countTrue, List.countP_map, Function.comp]

/-- Witness for C5 at Scenario A's labels. -/
theorem claim_C5_witness :
    ∃ m' tidx cidx u, update_metadata mvpA = .ok m' ∧
      m'.trial_idx = some tidx ∧ m'.class_idx = some cidx ∧
      m'.cope_names = some u ∧
      (∀ j, (∃ v ∈ tidx, j ∈ v) ↔
        j < ["A", "B", "A", "C", "B", "A"].length) ∧
      (∀ c1 c2, c1 < tidx.length → c2 < tidx.length → c1 ≠ c2 →
        ∀ j, j ∈ tidx.getD c1 [] → j ∉ tidx.getD c2 []) ∧
      (∀ c, c < cidx.length →
        countTrue (cidx.getD c []) =
          ["A", "B", "A", "C", "B", "A"].countP
            fun x => decide (x = u.getD c "")) :=
  claim_C5 mvpA ["A", "B", "A", "C", "B", "A"] rfl

/-- C7 counterexample: the claim says `deriveLabelMetadata` fails when
`conditionLabels` is an empty sequence, but the code has no such check —
on empty labels `update_metadata` succeeds (every derived field is empty),
raising no error. -/
theorem claim_C7_counterexample :
    ¬ ∃ msg, update_metadata mvpEmptyLabels = .error msg := by
  rintro ⟨msg, hc⟩
  rw [update_metadata_ok mvpEmptyLabels [] rfl] at hc
  exact Except.noConfusion hc

/-- C7 (amended): `update_metadata` fails when `cope_labels` is undefined
(`None`); when `cope_labels` is an empty sequence it does not fail — it
succeeds and every label-derived field is empty. -/
theorem claim_C7 {H A : Type} (m : Mvp H A) (h : m.cope_labels = none) :
    (∃ msg, update_metadata m = .error msg) ∧
    (∃ m', update_metadata mvpEmptyLabels = .ok m' ∧ m'.y = some [] ∧
      m'.cope_names = some [] ∧ m'.n_inst = some [] ∧
      m'.trial_idx = some [] ∧ m'.n_trials = some 0) := by
  constructor
  · refine ⟨"TypeError: cope_labels is None", ?_⟩
    unfold update_metadata
    rw [h]
  · exact ⟨_, rfl, by rfl, by rfl, by rfl, by rfl, by rfl⟩

/-- Witness for C7 (amended) at the freshly constructed container, whose
`cope_labels` is still `None`. -/
theorem claim_C7_witness :
    (∃ msg, update_metadata (mvp0 Unit Unit) = .error msg) ∧
    (∃ m', update_metadata mvpEmptyLabels = .ok m' ∧ m'.y = some [] ∧
      m'.cope_names = some [] ∧ m'.n_inst = some [] ∧
      m'.trial_idx = some [] ∧ m'.n_trials = some 0) :=
  claim_C7 (mvp0 Unit Unit) rfl

end Skbold
